import Mathlib

/-!
Shallow embedding of the timeline-synchronization core of the
muxinc/agent-video narrator pipeline.

Sources embedded here:
- `mcp-server/index.js`:
  - `calculateSegmentTimings` (character-timing mapper),
  - `generateAudio`'s clip-duration computation,
  - the sub-segment scheduler loop inside `createNarratedRecording`,
  - the audio-mix delay loop inside `createNarratedRecording`.
- `bin/narrator.sh`:
  - `cmd_mark` (mark log),
  - `cmd_finalize`'s segment-extraction bounds check and audio-filter build.

Numbers: JavaScript / shell arithmetic on media timestamps is modelled
with `ℚ` for second-valued quantities and `ℤ` for millisecond-valued
quantities.  `Math.round` is modelled as `jsRound`.
-/

namespace AgentVideo

/-- JavaScript `Math.round`: round half towards positive infinity. -/
def jsRound (x : ℚ) : ℤ := ⌊x + 1/2⌋

/-! ## CharacterTimingMapper (`calculateSegmentTimings`, index.js lines 157-187) -/

/-- A narration text segment with its scroll cue (`TextSegment` of the spec). -/
structure TextSeg where
  text : String
  scrollTo : String
deriving DecidableEq

/-- Per-segment timing record produced by `calculateSegmentTimings`. -/
structure SegTiming where
  text : String
  scrollTo : String
  startTimeSec : ℚ
  endTimeSec : ℚ
  startTimeMs : ℤ
  endTimeMs : ℤ
deriving DecidableEq

/-- JS array read `cst[j]` with an explicit fallback for an out-of-range
index, as in index.js lines 167 and 171.  (For line 171 the fallback is
`cst[cst.length - 1]`, i.e. `cst.getLastD 0` on a non-empty array; on an
empty array JS would yield `undefined`, which no theorem below relies on.) -/
def jsIndexOr (cst : List ℚ) (j : ℕ) (dflt : ℚ) : ℚ :=
  if j < cst.length then cst.getD j 0 else dflt

/-- The loop body of `calculateSegmentTimings`, threading the running
character offset `c` (index.js lines 162-184). -/
def calcTimings : List TextSeg → List ℚ → ℕ → List SegTiming
  | [], _, _ => []
  | seg :: rest, cst, c =>
    let L := seg.text.length
    let startTime := jsIndexOr cst c 0
    let endTime := jsIndexOr cst (c + L) (cst.getLastD 0)
    { text := seg.text
      scrollTo := seg.scrollTo
      startTimeSec := startTime
      endTimeSec := endTime
      startTimeMs := jsRound (startTime * 1000)
      endTimeMs := jsRound (endTime * 1000) } :: calcTimings rest cst (c + L + 1)

/-- `calculateSegmentTimings(segments, charStartTimes, characters)`:
the running character offset starts at 0. -/
def calculateSegmentTimings (segments : List TextSeg) (cst : List ℚ) : List SegTiming :=
  calcTimings segments cst 0

/-- The running character offset at which each segment starts in the
joined narration text (each segment advances the offset by its length
plus one for the joining space). -/
def segOffsets : List TextSeg → List ℕ
  | [] => []
  | s :: rest => 0 :: (segOffsets rest).map (fun o => o + (s.text.length + 1))

/-- The running character offset after consuming a prefix of segments,
starting from offset `c` (each segment advances it by its length plus
one for the joining space). -/
def offsetAfter (c : ℕ) : List TextSeg → ℕ
  | [] => c
  | s :: rest => offsetAfter (c + s.text.length + 1) rest

/-- A concrete monotonically increasing 21-entry timestamp array,
matching the joined text of the spec's test vector
`"Hello world. Goodbye."`. -/
def cst21 : List ℚ :=
  [0, 1, 2, 3, 4, 5, 6, 7, 8, 9, 10, 11, 12, 13, 14, 15, 16, 17, 18, 19, 20]

/-! ## Clip duration from synthesis alignment (`generateAudio`, index.js lines 224-233) -/

/-- index.js line 232: the clip duration in seconds is the last character
end time, or 3 seconds when the alignment array is empty. -/
def clipDurationSec (charEndTimes : List ℚ) : ℚ :=
  if 0 < charEndTimes.length then charEndTimes.getLastD 0 else 3

/-- index.js line 233: `durationMs = Math.round(durationSec * 1000)`. -/
def clipDurationMs (charEndTimes : List ℚ) : ℤ :=
  jsRound (clipDurationSec charEndTimes * 1000)

/-! ## SubSegmentScheduler (index.js lines 460-506)

The live scheduling loop is modelled with an idealized clock: time is the
accumulated elapsed milliseconds since `segmentStartTime`; `sleep w`
advances it by exactly `w`, and executing the scroll action bound to cue
`i` advances it by that action's latency.  A cue is a pair
`(startTimeMs, actionLatencyMs)`. -/

/-- One iteration of the cue loop (index.js lines 465-494): re-measure
`elapsed`, compute `wait = startTimeMs - elapsed`, sleep only when
`wait > 0`, then run the scroll action.  The state is the elapsed time
paired with the list of sleep amounts performed so far. -/
def cueStep (acc : ℤ × List ℤ) (cue : ℤ × ℤ) : ℤ × List ℤ :=
  let wait := cue.1 - acc.1
  let acc1 := if 0 < wait then (acc.1 + wait, acc.2 ++ [wait]) else acc
  (acc1.1 + cue.2, acc1.2)

/-- The whole per-clip scheduling loop (index.js lines 463-501): run all
cues, then sleep the remaining `clipDurationMs - totalElapsed` when
positive.  Returns the final elapsed time and every sleep performed. -/
def runScheduler (cues : List (ℤ × ℤ)) (clipDurationMs : ℤ) : ℤ × List ℤ :=
  let r := cues.foldl cueStep (0, [])
  let remaining := clipDurationMs - r.1
  if 0 < remaining then (r.1 + remaining, r.2 ++ [remaining]) else r

/-! ## MarkLog (`cmd_mark`, narrator.sh lines 155-202) -/

/-- One persisted mark: `<clipNumber> <offsetMs> <durationMs>`. -/
structure Mark where
  clipNum : ℕ
  offsetMs : ℤ
  durationMs : ℤ
deriving DecidableEq

/-- The failure modes of `cmd_mark` (narrator.sh exits 1 with the
matching message). -/
inductive MarkError
  | notStarted
  | noDurationKnown
deriving DecidableEq

/-- The session files `cmd_mark` reads and writes:
`recording_start_ms.txt`, the `clip_<n>_duration_ms.txt` files written by
`cmd_audio`, and the `marks.txt` log. -/
structure MarkSession where
  recordingStartMs : Option ℤ
  clipDurations : List (ℕ × ℤ)
  marks : List Mark
deriving DecidableEq

/-- `cmd_mark` (narrator.sh lines 155-202): fail `notStarted` when
`recording_start_ms.txt` is absent; fail `noDurationKnown` when the
clip's duration file is absent; otherwise append
`(clipNum, now - startMs, durationMs)` to `marks.txt`.  On failure the
command exits before writing, so the session is unchanged. -/
def cmdMark (nowMs : ℤ) (clipNum : ℕ) (s : MarkSession) :
    Except MarkError MarkSession :=
  match s.recordingStartMs with
  | none => .error .notStarted
  | some startMs =>
    match s.clipDurations.lookup clipNum with
    | none => .error .noDurationKnown
    | some durationMs =>
      .ok { s with marks := s.marks ++ [⟨clipNum, nowMs - startMs, durationMs⟩] }

/-! ## SegmentExtractor bounds check (`cmd_finalize`, narrator.sh lines 260-303) -/

/-- narrator.sh lines 277-284: the mark's window, converted to seconds,
must end at or before the probed recording duration (the awk comparison
of `end_sec` against `recording_duration`). -/
def markInBounds (recordingDurationSec : ℚ) (m : Mark) : Bool :=
  decide ((((m.offsetMs : ℚ) + (m.durationMs : ℚ)) / 1000) ≤ recordingDurationSec)

/-- The extraction loop of `cmd_finalize` (narrator.sh lines 260-303):
walk the mark log in order; a mark whose window exceeds the recording
duration is skipped (`continue`) with a warning; an in-bounds mark is
extracted and its clip number's segment file is appended to
`concat_list.txt`.  The encode call is assumed to succeed (the loop's
`-f segment_$num.mp4` check passes). -/
def finalizeConcatList (recordingDurationSec : ℚ) : List Mark → List ℕ
  | [] => []
  | m :: rest =>
    if markInBounds recordingDurationSec m then
      m.clipNum :: finalizeConcatList recordingDurationSec rest
    else
      finalizeConcatList recordingDurationSec rest

/-! ## AudioMixPlanner (index.js lines 561-585, narrator.sh lines 324-367) -/

/-- The delay-accumulation loop of the audio mix (index.js lines 565-583,
narrator.sh lines 331-346): clip `k`'s `adelay` is the running
`cumulativeOffsetMs`, which then grows by clip `k`'s *measured* (probed)
segment duration rounded to milliseconds. -/
def mixDelays : List ℚ → ℤ → List ℤ
  | [], _ => []
  | d :: ds, acc => acc :: mixDelays ds (acc + jsRound (d * 1000))

/-- One clip's presence on disk at `cmd_finalize` time (narrator.sh line
334: `[[ -f "clip_$i.mp3" && -f "segment_$i.mp4" ]]`), plus its probed
segment duration in milliseconds (line 341). -/
structure ClipFiles where
  hasAudio : Bool
  hasSegment : Bool
  segmentDurationMs : ℤ
deriving DecidableEq

/-- The audio step of `cmd_finalize` either applies a mix filter (a list
of per-input `adelay` values and the `amix=inputs=N` count) or copies the
concatenated video as-is with no filter. -/
inductive FinalizeAudio
  | videoOnly
  | mixed (delays : List ℤ) (amixInputs : ℕ)
deriving DecidableEq

/-- narrator.sh lines 333-346: only clips with both their audio file and
their surviving segment file take part in the mix. -/
def survivors (clips : List ClipFiles) : List ClipFiles :=
  clips.filter (fun c => c.hasAudio && c.hasSegment)

/-- The cumulative `adelay` values for the surviving clips
(narrator.sh lines 337-342): each clip's delay is the running offset,
which then grows by that clip's measured segment duration. -/
def survivorDelays : List ClipFiles → ℤ → List ℤ
  | [], _ => []
  | c :: cs, acc => acc :: survivorDelays cs (acc + c.segmentDurationMs)

/-- Steps 3-4 of `cmd_finalize` (narrator.sh lines 324-367): build the
filter over the surviving clips; if no audio input survived
(`num_audio = 0`), copy the video with no mix filter, else mix all
inputs with their cumulative delays. -/
def cmdFinalizeAudio (clips : List ClipFiles) : FinalizeAudio :=
  let surv := survivors clips
  if surv.isEmpty then .videoOnly
  else .mixed (survivorDelays surv 0) surv.length

/-! ## Helper lemmas -/

/-- On a non-empty list, `getLastD` is the last element, whatever the
default. -/
lemma getLastD_of_ne_nil : ∀ (l : List ℚ) (d : ℚ) (h : l ≠ []),
    l.getLastD d = l.getLast h
  | [_], _, _ => rfl
  | a :: b :: t, _, _ => getLastD_of_ne_nil (b :: t) a (List.cons_ne_nil b t)

/-- Rounding a nonnegative number of seconds to milliseconds is
nonnegative. -/
lemma jsRound_nonneg {d : ℚ} (hd : 0 ≤ d) : 0 ≤ jsRound (d * 1000) := by
  unfold jsRound
  rw [Int.le_floor]
  push_cast
  linarith

end AgentVideo

namespace AgentVideo

/-! ## Theorems for the claims -/

/-- C10: When the synthesis response carries an empty
`character_end_times_seconds` alignment array, `generateAudio` reports a
default clip duration of exactly 3 seconds (`durationMs = 3000`);
otherwise the duration is the last character end time rounded to
milliseconds. -/
theorem C10_default_duration (ends : List ℚ) (h : ends ≠ []) :
    clipDurationMs [] = 3000 ∧
    clipDurationMs ends = jsRound (ends.getLast h * 1000) := by
  constructor
  · norm_num [clipDurationMs, clipDurationSec, jsRound]
  · unfold clipDurationMs clipDurationSec
    rw [if_pos (List.length_pos.mpr h), getLastD_of_ne_nil ends 0 h]

/-- Witness for `C10_default_duration` at the alignment `[7/2]`. -/
theorem C10_witness :
    clipDurationMs [] = 3000 ∧
    clipDurationMs [(7/2 : ℚ)] = jsRound ((7/2 : ℚ) * 1000) :=
  C10_default_duration [(7/2 : ℚ)] (by simp)

/-- C8: `cmd_mark` fails with `NotStarted` when `start` has not been
run (no `recording_start_ms.txt`), fails with `NoDurationKnown` when no
synthesized duration exists for the clip number, and otherwise appends
`(clipNumber, now - T0, durationMs)` to the mark log.  In the failure
cases the command exits before its only write, so the mark log is
unchanged (the error results carry no modified session). -/
theorem C8_mark_errors (nowMs : ℤ) (clipNum : ℕ) (s : MarkSession) :
    (s.recordingStartMs = none → cmdMark nowMs clipNum s = .error .notStarted) ∧
    (∀ startMs, s.recordingStartMs = some startMs →
      s.clipDurations.lookup clipNum = none →
      cmdMark nowMs clipNum s = .error .noDurationKnown) ∧
    (∀ startMs durMs, s.recordingStartMs = some startMs →
      s.clipDurations.lookup clipNum = some durMs →
      cmdMark nowMs clipNum s =
        .ok { s with marks := s.marks ++ [⟨clipNum, nowMs - startMs, durMs⟩] }) := by
  refine ⟨fun h => ?_, fun startMs h1 h2 => ?_, fun startMs durMs h1 h2 => ?_⟩
  · simp [cmdMark, h]
  · simp [cmdMark, h1, h2]
  · simp [cmdMark, h1, h2]

/-- Witness for `C8_mark_errors`: the three cases at concrete sessions. -/
theorem C8_witness :
    cmdMark 500 1 ⟨none, [(1, 2000)], []⟩ = .error .notStarted ∧
    cmdMark 500 2 ⟨some 100, [(1, 2000)], []⟩ = .error .noDurationKnown ∧
    cmdMark 500 1 ⟨some 100, [(1, 2000)], []⟩ =
      .ok ⟨some 100, [(1, 2000)], [⟨1, 500 - 100, 2000⟩]⟩ :=
  ⟨(C8_mark_errors 500 1 ⟨none, [(1, 2000)], []⟩).1 rfl,
   (C8_mark_errors 500 2 ⟨some 100, [(1, 2000)], []⟩).2.1 100 rfl rfl,
   (C8_mark_errors 500 1 ⟨some 100, [(1, 2000)], []⟩).2.2 100 2000 rfl rfl⟩

/-- C7 counterexample: Re-marking clip 1 — which already has the
mark `(1, 100, 2000)` in the log — does *not* raise a conflict error:
`cmd_mark` succeeds and silently appends a second mark for clip 1
(narrator.sh lines 155-202 contain no duplicate check). -/
theorem C7_counterexample :
    cmdMark 5000 1 ⟨some 0, [(1, 2000)], [⟨1, 100, 2000⟩]⟩ =
      .ok ⟨some 0, [(1, 2000)], [⟨1, 100, 2000⟩, ⟨1, 5000 - 0, 2000⟩]⟩ := by
  simp [cmdMark]

/-- C7 amended: Marking a clip number that already has a mark in
the log succeeds (no conflict error): the new mark is appended after the
existing log, so the first mark is kept intact and a second mark for the
same clip number now exists. -/
theorem C7_remark_appends (nowMs : ℤ) (clipNum : ℕ) (s : MarkSession)
    (startMs durMs : ℤ)
    (hstart : s.recordingStartMs = some startMs)
    (hdur : s.clipDurations.lookup clipNum = some durMs)
    (_hprior : ∃ m ∈ s.marks, m.clipNum = clipNum) :
    cmdMark nowMs clipNum s =
      .ok { s with marks := s.marks ++ [⟨clipNum, nowMs - startMs, durMs⟩] } := by
  simp [cmdMark, hstart, hdur]

/-- Witness for `C7_remark_appends` at a session that already holds a
mark for clip 1. -/
theorem C7_witness :
    cmdMark 7000 1 ⟨some 0, [(1, 2500)], [⟨1, 300, 2500⟩]⟩ =
      .ok ⟨some 0, [(1, 2500)], [⟨1, 300, 2500⟩, ⟨1, 7000 - 0, 2500⟩]⟩ :=
  C7_remark_appends 7000 1 ⟨some 0, [(1, 2500)], [⟨1, 300, 2500⟩]⟩ 0 2500
    rfl rfl ⟨⟨1, 300, 2500⟩, by simp⟩

/-- The delay assigned to position `k` of the mix loop is the starting
offset plus the prefix sum of the rounded measured durations. -/
lemma mixDelays_getD : ∀ (ds : List ℚ) (acc : ℤ) (k : ℕ), k < ds.length →
    (mixDelays ds acc).getD k 0 =
      acc + ((ds.take k).map (fun d => jsRound (d * 1000))).sum
  | [], _, k, hk => absurd hk (by simp)
  | d :: ds, acc, 0, _ => by simp [mixDelays]
  | d :: ds, acc, k + 1, hk => by
    have ih := mixDelays_getD ds (acc + jsRound (d * 1000)) k
      (by simpa using Nat.lt_of_succ_lt_succ hk)
    simp only [mixDelays, List.getD_cons_succ, List.take_succ_cons, List.map_cons,
      List.sum_cons] at ih ⊢
    rw [ih]
    ring

/-- With nonnegative measured durations, the accumulated delays are
non-decreasing. -/
lemma mixDelays_chain : ∀ (ds : List ℚ) (acc : ℤ), (∀ d ∈ ds, (0 : ℚ) ≤ d) →
    List.Chain' (· ≤ ·) (mixDelays ds acc)
  | [], _, _ => List.chain'_nil
  | d :: ds, acc, h => by
    rw [mixDelays, List.chain'_cons']
    refine ⟨fun y hy => ?_, mixDelays_chain ds _ (fun e he => h e (by simp [he]))⟩
    have hd : 0 ≤ jsRound (d * 1000) := jsRound_nonneg (h d (by simp))
    cases ds with
    | nil => simp [mixDelays] at hy
    | cons e es =>
      simp only [mixDelays, List.head?_cons, Option.mem_def, Option.some_inj] at hy
      omega

/-- C1: The mix plan assigns clip `k` a cumulative delay equal to the
sum of `measuredDurationSec × 1000` (rounded to ms) over all segments
strictly before `k` in the concatenated track: the first clip gets delay
0, and with nonnegative measured durations the delays are non-decreasing.
The loop's input is the list of probed (post-encode) segment durations,
never the nominal mark durations. -/
theorem C1_mix_delays_cumulative (ds : List ℚ) (hnn : ∀ d ∈ ds, (0 : ℚ) ≤ d) :
    (∀ k, k < ds.length →
      (mixDelays ds 0).getD k 0 =
        ((ds.take k).map (fun d => jsRound (d * 1000))).sum) ∧
    (0 < ds.length → (mixDelays ds 0).getD 0 0 = 0) ∧
    List.Chain' (· ≤ ·) (mixDelays ds 0) := by
  refine ⟨fun k hk => ?_, fun hpos => ?_, mixDelays_chain ds 0 hnn⟩
  · have := mixDelays_getD ds 0 k hk
    omega
  · have := mixDelays_getD ds 0 0 hpos
    simpa using this

/-- Witness for `C1_mix_delays_cumulative` at measured durations
`[3/2, 2, 5/2]` seconds. -/
theorem C1_witness :
    (∀ d ∈ [(3/2 : ℚ), 2, 5/2], (0 : ℚ) ≤ d) ∧
    (∀ k, k < ([(3/2 : ℚ), 2, 5/2] : List ℚ).length →
      (mixDelays [(3/2 : ℚ), 2, 5/2] 0).getD k 0 =
        ((([(3/2 : ℚ), 2, 5/2] : List ℚ).take k).map
          (fun d => jsRound (d * 1000))).sum) ∧
    List.Chain' (· ≤ ·) (mixDelays [(3/2 : ℚ), 2, 5/2] 0) := by
  have h : ∀ d ∈ [(3/2 : ℚ), 2, 5/2], (0 : ℚ) ≤ d := by norm_num
  exact ⟨h, (C1_mix_delays_cumulative [(3/2 : ℚ), 2, 5/2] h).1,
    (C1_mix_delays_cumulative [(3/2 : ℚ), 2, 5/2] h).2.2⟩

/-- Every sleep recorded while folding the cue loop is strictly
positive, provided every sleep already recorded was. -/
lemma cueFold_sleeps_pos : ∀ (cues : List (ℤ × ℤ)) (acc : ℤ × List ℤ),
    (∀ w ∈ acc.2, 0 < w) → ∀ w ∈ (cues.foldl cueStep acc).2, 0 < w
  | [], _, h => h
  | cue :: rest, acc, h => by
    rw [List.foldl_cons]
    refine cueFold_sleeps_pos rest (cueStep acc cue) ?_
    intro w hw
    unfold cueStep at hw
    by_cases hpos : 0 < cue.1 - acc.1
    · simp only [if_pos hpos, List.mem_append, List.mem_singleton] at hw
      rcases hw with hw | hw
      · exact h w hw
      · omega
    · simp only [if_neg hpos] at hw
      exact h w hw

/-- C2: For a clip with a non-empty cue list, the scheduler computes
each wait as `startTimeMs` minus the re-measured elapsed time, suspends
only when the wait is strictly positive — so it never sleeps for a
negative (or zero) duration — and after the last cue sleeps the positive
remainder of `clipDurationMs`, so the clip's live phase advances at
least `clipDurationMs` of wall-clock time. -/
theorem C2_scheduler_no_negative_sleep (cues : List (ℤ × ℤ))
    (clipDurationMs : ℤ) (_hne : cues ≠ []) :
    (∀ w ∈ (runScheduler cues clipDurationMs).2, 0 < w) ∧
    clipDurationMs ≤ (runScheduler cues clipDurationMs).1 := by
  unfold runScheduler
  constructor
  · intro w hw
    by_cases hrem : 0 < clipDurationMs - (cues.foldl cueStep (0, [])).1
    · simp only [if_pos hrem, List.mem_append, List.mem_singleton] at hw
      rcases hw with hw | hw
      · exact cueFold_sleeps_pos cues (0, []) (by simp) w hw
      · omega
    · simp only [if_neg hrem] at hw
      exact cueFold_sleeps_pos cues (0, []) (by simp) w hw
  · by_cases hrem : 0 < clipDurationMs - (cues.foldl cueStep (0, [])).1
    · simp only [if_pos hrem]
      omega
    · simp only [if_neg hrem]
      omega

/-- Witness for `C2_scheduler_no_negative_sleep` at the cue start times
`[0, 2000, 5000]` of the spec's test vector, each action taking 10ms,
with a 7000ms clip. -/
theorem C2_witness :
    (∀ w ∈ (runScheduler [(0, 10), (2000, 10), (5000, 10)] 7000).2, 0 < w) ∧
    (7000 : ℤ) ≤ (runScheduler [(0, 10), (2000, 10), (5000, 10)] 7000).1 :=
  C2_scheduler_no_negative_sleep [(0, 10), (2000, 10), (5000, 10)] 7000 (by simp)

/-- The extraction loop processes a concatenation of mark-log chunks
chunk by chunk. -/
lemma finalizeConcatList_append (recDur : ℚ) :
    ∀ (l1 l2 : List Mark),
      finalizeConcatList recDur (l1 ++ l2) =
        finalizeConcatList recDur l1 ++ finalizeConcatList recDur l2
  | [], _ => rfl
  | m :: rest, l2 => by
    by_cases h : markInBounds recDur m
    · simp [finalizeConcatList, h, finalizeConcatList_append recDur rest l2]
    · simp [finalizeConcatList, h, finalizeConcatList_append recDur rest l2]

/-- Every in-bounds mark of the log contributes its segment to the
concat list. -/
lemma finalizeConcatList_mem (recDur : ℚ) :
    ∀ (marks : List Mark) (m : Mark), m ∈ marks →
      markInBounds recDur m = true →
      m.clipNum ∈ finalizeConcatList recDur marks
  | m' :: rest, m, hm, hb => by
    rcases List.mem_cons.mp hm with rfl | htail
    · simp [finalizeConcatList, hb]
    · by_cases h : markInBounds recDur m'
      · simp only [finalizeConcatList, if_pos h, List.mem_cons]
        exact Or.inr (finalizeConcatList_mem recDur rest m htail hb)
      · simp only [finalizeConcatList, if_neg h]
        exact finalizeConcatList_mem recDur rest m htail hb

/-- C3: A mark whose window `offsetMs + durationMs` exceeds the
probed total recording duration is skipped: it contributes nothing to
the concat list, while the marks before and after it are still processed
exactly as they would be without it, and every remaining in-bounds mark
still lands in the concat list — a single out-of-bounds mark never
aborts the extraction loop. -/
theorem C3_out_of_bounds_skipped (recDur : ℚ) (pre post : List Mark)
    (bad : Mark) (hbad : markInBounds recDur bad = false) :
    finalizeConcatList recDur (pre ++ bad :: post) =
      finalizeConcatList recDur pre ++ finalizeConcatList recDur post ∧
    ∀ m ∈ pre ++ post, markInBounds recDur m = true →
      m.clipNum ∈ finalizeConcatList recDur (pre ++ bad :: post) := by
  have hsplit : finalizeConcatList recDur (pre ++ bad :: post) =
      finalizeConcatList recDur pre ++ finalizeConcatList recDur post := by
    rw [finalizeConcatList_append recDur pre (bad :: post)]
    simp [finalizeConcatList, hbad]
  refine ⟨hsplit, fun m hm hb => ?_⟩
  rw [hsplit]
  rcases List.mem_append.mp hm with h | h
  · exact List.mem_append_left _ (finalizeConcatList_mem recDur pre m h hb)
  · exact List.mem_append_right _ (finalizeConcatList_mem recDur post m h hb)

/-- Witness for `C3_out_of_bounds_skipped`: the spec's test vector — a
mark `offsetMs = 0, durationMs = 5000` against a 4-second recording is
rejected while the valid marks around it survive. -/
theorem C3_witness :
    markInBounds 4 ⟨2, 0, 5000⟩ = false ∧
    (finalizeConcatList 4 ([⟨1, 0, 2000⟩] ++ ⟨2, 0, 5000⟩ :: [⟨3, 2000, 1500⟩]) =
      finalizeConcatList 4 [⟨1, 0, 2000⟩] ++ finalizeConcatList 4 [⟨3, 2000, 1500⟩] ∧
    ∀ m ∈ [⟨1, 0, 2000⟩] ++ [(⟨3, 2000, 1500⟩ : Mark)],
      markInBounds 4 m = true →
      m.clipNum ∈ finalizeConcatList 4 ([⟨1, 0, 2000⟩] ++ ⟨2, 0, 5000⟩ :: [⟨3, 2000, 1500⟩])) := by
  have hbad : markInBounds 4 ⟨2, 0, 5000⟩ = false := by
    simp [markInBounds]
    norm_num
  exact ⟨hbad, C3_out_of_bounds_skipped 4 [⟨1, 0, 2000⟩] [⟨3, 2000, 1500⟩] ⟨2, 0, 5000⟩ hbad⟩

/-- C6: When no audio clip survives, `cmd_finalize` copies the
concatenated video as-is — a valid video-only composite with no mix
filter.  With exactly one surviving clip, it goes through the same
mixing path with a single `adelay` of 0 and `amix=inputs=1`. -/
theorem C6_zero_one_clip :
    (∀ clips, survivors clips = [] → cmdFinalizeAudio clips = .videoOnly) ∧
    (∀ c : ClipFiles, c.hasAudio = true → c.hasSegment = true →
      cmdFinalizeAudio [c] = .mixed [0] 1) := by
  constructor
  · intro clips h
    simp [cmdFinalizeAudio, h]
  · intro c h1 h2
    have hs : survivors [c] = [c] := by simp [survivors, h1, h2]
    simp [cmdFinalizeAudio, hs, survivorDelays]

/-- Witness for `C6_zero_one_clip`: no surviving audio (the only clip
lacks its mp3) yields the video-only path; one complete clip yields the
mix path with delay 0. -/
theorem C6_witness :
    cmdFinalizeAudio [⟨false, true, 5000⟩] = .videoOnly ∧
    cmdFinalizeAudio [⟨true, true, 5000⟩] = .mixed [0] 1 :=
  ⟨(C6_zero_one_clip.1 [⟨false, true, 5000⟩] (by simp [survivors])),
   (C6_zero_one_clip.2 ⟨true, true, 5000⟩ rfl rfl)⟩

/-- The start times produced by the mapper, expressed through the
independent per-segment character offsets. -/
lemma calcTimings_map_start : ∀ (ss : List TextSeg) (cst : List ℚ) (c : ℕ),
    (calcTimings ss cst c).map (fun t => t.startTimeSec) =
      (segOffsets ss).map (fun o => jsIndexOr cst (o + c) 0)
  | [], _, _ => rfl
  | s :: rest, cst, c => by
    simp only [calcTimings, segOffsets, List.map_cons, List.map_map, Nat.zero_add]
    refine congrArg (List.cons _) ?_
    rw [calcTimings_map_start rest cst (c + s.text.length + 1)]
    refine List.map_congr_left (fun o _ => ?_)
    simp only [Function.comp_apply]
    congr 1
    omega

/-- The start/end time pairs produced by the mapper, expressed through
the independent per-segment character offsets. -/
lemma calcTimings_map_pair : ∀ (ss : List TextSeg) (cst : List ℚ) (c : ℕ),
    (calcTimings ss cst c).map (fun t => (t.startTimeSec, t.endTimeSec)) =
      (ss.zip (segOffsets ss)).map (fun p =>
        (jsIndexOr cst (p.2 + c) 0,
         jsIndexOr cst (p.2 + c + p.1.text.length) (cst.getLastD 0)))
  | [], _, _ => rfl
  | s :: rest, cst, c => by
    simp only [calcTimings, segOffsets, List.zip_cons_cons, List.zip_map_right,
      List.map_cons, List.map_map, Nat.zero_add]
    refine congrArg (List.cons _) ?_
    rw [calcTimings_map_pair rest cst (c + s.text.length + 1)]
    refine List.map_congr_left (fun p _ => ?_)
    simp only [Function.comp_apply, Prod.map_fst, Prod.map_snd, id_eq, Prod.mk.injEq]
    refine ⟨?_, ?_⟩ <;> · congr 1; omega

/-- The mapper produces one timing per segment — nothing is rejected. -/
lemma calcTimings_length : ∀ (ss : List TextSeg) (cst : List ℚ) (c : ℕ),
    (calcTimings ss cst c).length = ss.length
  | [], _, _ => rfl
  | s :: rest, cst, c => by
    simp [calcTimings, calcTimings_length rest cst (c + s.text.length + 1)]

/-- The mapper processes a concatenation of segment lists chunk by
chunk, resuming at the accumulated character offset. -/
lemma calcTimings_append : ∀ (l1 l2 : List TextSeg) (cst : List ℚ) (c : ℕ),
    calcTimings (l1 ++ l2) cst c =
      calcTimings l1 cst c ++ calcTimings l2 cst (offsetAfter c l1)
  | [], _, _, _ => rfl
  | s :: rest, l2, cst, c => by
    simp only [List.cons_append, calcTimings, offsetAfter]
    exact congrArg (List.cons _) (calcTimings_append rest l2 cst (c + s.text.length + 1))

/-- C4: For the segments `["Hello world.", "Goodbye."]` and any
monotonically increasing `characterStartTimes` array matching the joined
text `"Hello world. Goodbye."` (21 characters), the first segment's
start time is `characterStartTimes[0]` and the second's is
`characterStartTimes[13]`: the running offset advances by the first
segment's 12 characters plus 1 for the joining space. -/
theorem C4_hello_goodbye_timings (cst : List ℚ)
    (_hmono : List.Chain' (· < ·) cst) (hlen : cst.length = 21) :
    (calculateSegmentTimings
        [⟨"Hello world.", "top"⟩, ⟨"Goodbye.", "bottom"⟩] cst).map
      (fun t => t.startTimeSec) = [cst.getD 0 0, cst.getD 13 0] := by
  unfold calculateSegmentTimings
  rw [calcTimings_map_start [⟨"Hello world.", "top"⟩, ⟨"Goodbye.", "bottom"⟩] cst 0]
  have h12 : ("Hello world." : String).length = 12 := rfl
  simp [segOffsets, h12, jsIndexOr, hlen]

/-- Witness for `C4_hello_goodbye_timings` at the concrete array
`cst21 = [0, 1, ..., 20]`. -/
theorem C4_witness :
    (List.Chain' (· < ·) cst21 ∧ cst21.length = 21) ∧
    (calculateSegmentTimings
        [⟨"Hello world.", "top"⟩, ⟨"Goodbye.", "bottom"⟩] cst21).map
      (fun t => t.startTimeSec) = [cst21.getD 0 0, cst21.getD 13 0] := by
  have hm : List.Chain' (· < ·) cst21 := by
    norm_num [cst21, List.chain'_cons]
  have hl : cst21.length = 21 := by norm_num [cst21]
  exact ⟨⟨hm, hl⟩, C4_hello_goodbye_timings cst21 hm hl⟩

/-- C5 counterexample: With segments `["a", "b"]` and the
single-entry array `[1/2]`, the second segment's running offset (2)
exceeds the array, and the mapper returns start time 0 — not the last
available timestamp 1/2 (index.js line 167 falls back to `0`, not to
`charStartTimes[charStartTimes.length - 1]`). -/
theorem C5_counterexample :
    (calculateSegmentTimings [⟨"a", "top"⟩, ⟨"b", "top"⟩] [1/2]).map
      (fun t => t.startTimeSec) = [1/2, 0] ∧ (0 : ℚ) ≠ 1/2 := by
  norm_num [calculateSegmentTimings, calcTimings, jsIndexOr]

/-- C5 amended: For every segment list and non-empty
`characterStartTimes` array: when a segment's running character offset
`c` is within the array the mapper returns `startTime =
characterStartTimes[c]`, and when `c` exceeds the array it returns `0`
(not the last timestamp) rather than erroring; `endTime` is
`characterStartTimes[c + L]` when in range, else the final timestamp in
the array. -/
theorem C5_fallback_times (ss : List TextSeg) (cst : List ℚ) (h : cst ≠ []) :
    (calculateSegmentTimings ss cst).map
        (fun t => (t.startTimeSec, t.endTimeSec)) =
      (ss.zip (segOffsets ss)).map (fun p =>
        ((if p.2 < cst.length then cst.getD p.2 0 else 0),
         (if p.2 + p.1.text.length < cst.length
          then cst.getD (p.2 + p.1.text.length) 0
          else cst.getLast h))) := by
  unfold calculateSegmentTimings
  rw [calcTimings_map_pair ss cst 0]
  refine List.map_congr_left (fun p _ => ?_)
  simp only [jsIndexOr, Nat.add_zero, getLastD_of_ne_nil cst 0 h]

/-- Witness for `C5_fallback_times` at one two-character segment against
a two-entry array. -/
theorem C5_witness :
    (calculateSegmentTimings [⟨"ab", "top"⟩] [(1/10 : ℚ), 2/10]).map
        (fun t => (t.startTimeSec, t.endTimeSec)) =
      (([⟨"ab", "top"⟩] : List TextSeg).zip (segOffsets [⟨"ab", "top"⟩])).map
        (fun p =>
          ((if p.2 < ([(1/10 : ℚ), 2/10] : List ℚ).length
            then ([(1/10 : ℚ), 2/10] : List ℚ).getD p.2 0 else 0),
           (if p.2 + p.1.text.length < ([(1/10 : ℚ), 2/10] : List ℚ).length
            then ([(1/10 : ℚ), 2/10] : List ℚ).getD (p.2 + p.1.text.length) 0
            else ([(1/10 : ℚ), 2/10] : List ℚ).getLast (by simp)))) :=
  C5_fallback_times [⟨"ab", "top"⟩] [(1/10 : ℚ), 2/10] (by simp)

/-- C9 counterexample: The input `["a", ""]` contains a zero-length
segment, yet the mapper (which has no error path at all) returns a full
timing list in which that segment's timing has
`startTime = endTime = 3/10` — it is not rejected. -/
theorem C9_counterexample :
    (calculateSegmentTimings [⟨"a", "top"⟩, ⟨"", "top"⟩]
        [(1/10 : ℚ), 2/10, 3/10]).map
      (fun t => (t.startTimeSec, t.endTimeSec)) =
      [((1/10 : ℚ), (2/10 : ℚ)), (3/10, 3/10)] := by
  have h1 : ("a" : String).length = 1 := rfl
  have h0 : ("" : String).length = 0 := rfl
  norm_num [calculateSegmentTimings, calcTimings, jsIndexOr, h1, h0]

/-- C9 amended: A zero-length segment is accepted, not rejected:
the mapper still emits one timing per segment, and when the zero-length
segment's running offset is within the array its timing has
`startTime = endTime = characterStartTimes[c]`. -/
theorem C9_zero_length_accepted (pre post : List TextSeg) (s : TextSeg)
    (cst : List ℚ) (hzero : s.text.length = 0)
    (hin : offsetAfter 0 pre < cst.length) :
    (calculateSegmentTimings (pre ++ s :: post) cst).length =
      pre.length + 1 + post.length ∧
    ∃ t ∈ calculateSegmentTimings (pre ++ s :: post) cst,
      t.startTimeSec = cst.getD (offsetAfter 0 pre) 0 ∧
      t.endTimeSec = t.startTimeSec := by
  constructor
  · rw [calculateSegmentTimings, calcTimings_length]
    simp
    omega
  · unfold calculateSegmentTimings
    rw [calcTimings_append pre (s :: post) cst 0]
    have hhead : calcTimings (s :: post) cst (offsetAfter 0 pre) =
        { text := s.text, scrollTo := s.scrollTo,
          startTimeSec := cst.getD (offsetAfter 0 pre) 0,
          endTimeSec := cst.getD (offsetAfter 0 pre) 0,
          startTimeMs := jsRound (cst.getD (offsetAfter 0 pre) 0 * 1000),
          endTimeMs := jsRound (cst.getD (offsetAfter 0 pre) 0 * 1000) } ::
          calcTimings post cst (offsetAfter 0 pre + s.text.length + 1) := by
      simp [calcTimings, jsIndexOr, hzero, hin]
    rw [hhead]
    exact ⟨_, List.mem_append_right _ (List.mem_cons_self _ _), rfl, rfl⟩

/-- Witness for `C9_zero_length_accepted`: the zero-length segment after
`"a"` has offset 2 inside the three-entry array. -/
theorem C9_witness :
    (calculateSegmentTimings ([⟨"a", "top"⟩] ++ ⟨"", "top"⟩ :: [])
        [(1/10 : ℚ), 2/10, 3/10]).length = 1 + 1 + 0 ∧
    ∃ t ∈ calculateSegmentTimings ([⟨"a", "top"⟩] ++ ⟨"", "top"⟩ :: [])
        [(1/10 : ℚ), 2/10, 3/10],
      t.startTimeSec =
        ([(1/10 : ℚ), 2/10, 3/10] : List ℚ).getD (offsetAfter 0 [⟨"a", "top"⟩]) 0 ∧
      t.endTimeSec = t.startTimeSec := by
  have h := C9_zero_length_accepted [⟨"a", "top"⟩] [] ⟨"", "top"⟩
    [(1/10 : ℚ), 2/10, 3/10] rfl (by decide)
  simpa using h

end AgentVideo
